import Mathlib

/-!
Verification of the particle swarm optimization program in src/pso/src/main.rs.

Rust `f64` values are modelled as rationals `ℚ`; the objective `f` is an
arbitrary function `ℚ → ℚ`.  The Rust program's random number generator is
modelled as an infinite stream `ℕ → ℚ` of draws, consumed in the order the
source draws them.  Panics (`assert!`, `.unwrap()` on `None`) are modelled as
error / `none` results of the embedded functions.
-/

namespace PSO

/-- `enum OptimizationPolicy` from the source. -/
inductive OptimizationPolicy
  | FindMinimum
  | FindMaximum
deriving DecidableEq

/-- Panic modes of the swarm constructors: the two `assert!` length checks and
the `.unwrap()` of `max_by`'s result (which is `None` on an empty vector). -/
inductive PsoError
  | dimensionMismatch
  | panicUnwrapNone
deriving DecidableEq

/-- `struct ParticleSwarm` from the source: parallel per-particle sequences and
the optional global optimum. -/
structure ParticleSwarm where
  position : List ℚ
  velocity : List ℚ
  local_optimum : List ℚ
  global_optimum : Option ℚ
deriving DecidableEq

/-- Rust's `Iterator::max_by` over a vector of `f64`, with a total comparator:
returns the greatest element per `cmp`, the LAST one among equal maxima
(Rust folds `acc, y ↦ if cmp(acc, y) == Greater then acc else y`),
and `none` on the empty list. -/
def maxBy (cmp : ℚ → ℚ → Ordering) : List ℚ → Option ℚ
  | [] => none
  | x :: xs => some (xs.foldl (fun acc y => if cmp acc y = Ordering.gt then acc else y) x)

/-- The comparator the CONSTRUCTORS (`new`, `new_random`) pass to `max_by`:
`FindMinimum ↦ cmp (f x) (f y)`, `FindMaximum ↦ cmp (f y) (f x)`
(source lines 25-28 and 58-61). -/
def ctorCmp (f : ℚ → ℚ) (opt : OptimizationPolicy) : ℚ → ℚ → Ordering :=
  fun x y =>
    match opt with
    | .FindMinimum => compare (f x) (f y)
    | .FindMaximum => compare (f y) (f x)

/-- The comparator `update` passes to `max_by`:
`FindMinimum ↦ cmp (f y) (f x)`, `FindMaximum ↦ cmp (f x) (f y)`
(source lines 132-135) — note it is orientation-REVERSED w.r.t. `ctorCmp`. -/
def updateCmp (f : ℚ → ℚ) (opt : OptimizationPolicy) : ℚ → ℚ → Ordering :=
  fun x y =>
    match opt with
    | .FindMinimum => compare (f y) (f x)
    | .FindMaximum => compare (f x) (f y)

/-- `ParticleSwarm::new` (source lines 14-37).  The two `assert!`s become
`dimensionMismatch` errors; the `.unwrap()` of `max_by` over the copied
`local_optimum` becomes `panicUnwrapNone` when the vector is empty. -/
def ParticleSwarm.new (n : ℕ) (x v : List ℚ) (f : ℚ → ℚ) (opt : OptimizationPolicy) :
    Except PsoError ParticleSwarm :=
  if x.length ≠ n then .error .dimensionMismatch
  else if v.length ≠ n then .error .dimensionMismatch
  else
    match maxBy (ctorCmp f opt) x with
    | none => .error .panicUnwrapNone
    | some g => .ok ⟨x, v, x, some g⟩

/-- `ParticleSwarm::new_random` (source lines 38-70).  The loop draws, for each
particle in order, first its position then its velocity, so particle `i`'s
position is draw `2*i` and its velocity draw `2*i+1` of the stream `r`. -/
def ParticleSwarm.new_random (n : ℕ) (f : ℚ → ℚ) (opt : OptimizationPolicy)
    (r : ℕ → ℚ) : Except PsoError ParticleSwarm :=
  let position := (List.range n).map (fun i => r (2 * i))
  let velocity := (List.range n).map (fun i => r (2 * i + 1))
  match maxBy (ctorCmp f opt) position with
  | none => .error .panicUnwrapNone
  | some g => .ok ⟨position, velocity, position, some g⟩

/-- The personal-best pass of `update` (source lines 112-126): elementwise over
the (already position-updated) `position` and the old `local_optimum`, keep the
new position exactly on STRICT improvement per the direction. -/
def stepLocal (f : ℚ → ℚ) (opt : OptimizationPolicy) (pos loc : List ℚ) : List ℚ :=
  List.zipWith
    (fun p l =>
      match opt with
      | .FindMinimum => if f p < f l then p else l
      | .FindMaximum => if f p > f l then p else l)
    pos loc

/-- The position pass of `update` (source lines 107-110):
`position[i] += velocity[i]` for every particle. -/
def posStep (s : ParticleSwarm) : List ℚ :=
  List.zipWith (fun p v => p + v) s.position s.velocity

/-- The velocity pass of `update` (source lines 140-146): particle `i` draws
`r1 = r (2*i)` and `r2 = r (2*i+1)` and adds the cognitive and social pulls to
its old velocity, reading the already-updated `loc`, `pos` and global best
`g`. -/
def velStep (vel loc pos : List ℚ) (g c1 c2 : ℚ) (r : ℕ → ℚ) : List ℚ :=
  (List.range vel.length).map (fun i =>
    vel.getD i 0
      + c1 * r (2 * i) * (loc.getD i 0 - pos.getD i 0)
      + c2 * r (2 * i + 1) * (g - pos.getD i 0))

/-- `fn update` (source lines 100-147), one optimization step.
Sub-step order as in the source: positions, then personal bests, then the
global best (full re-scan via `max_by` with `updateCmp`), then velocities.
`none` models the `.unwrap()` panic when the swarm is empty. -/
def update (s : ParticleSwarm) (c1 c2 : ℚ) (f : ℚ → ℚ) (opt : OptimizationPolicy)
    (r : ℕ → ℚ) : Option ParticleSwarm :=
  match maxBy (updateCmp f opt) (stepLocal f opt (posStep s) s.local_optimum) with
  | none => none
  | some g =>
    some ⟨posStep s,
          velStep s.velocity (stepLocal f opt (posStep s) s.local_optimum) (posStep s) g c1 c2 r,
          stepLocal f opt (posStep s) s.local_optimum,
          some g⟩

/-- One `update` call consumes `2 * n` draws (two per particle in the velocity
loop); the stream seen by the next call starts after them. -/
def rngAfter (s : ParticleSwarm) (r : ℕ → ℚ) : ℕ → ℚ :=
  fun k => r (2 * s.velocity.length + k)

/-- `k` successive `update` calls sharing one random stream, as in `main`'s
fixed-iteration loop (source lines 354-363); `none` if any step panics. -/
def iterateUpdate (c1 c2 : ℚ) (f : ℚ → ℚ) (opt : OptimizationPolicy) :
    ℕ → ParticleSwarm → (ℕ → ℚ) → Option ParticleSwarm
  | 0, s, _ => some s
  | k + 1, s, r =>
    match update s c1 c2 f opt r with
    | none => none
    | some t => iterateUpdate c1 c2 f opt k t (rngAfter s r)

/-- `main`'s error-threshold loop (source lines 364-375):
`while f(global_optimum.unwrap()) > thresh { update }`.  The source has NO
iteration cap, so the loop is embedded with explicit fuel: `some` is a normal
exit with the final state, `none` means the fuel ran out without the condition
ever failing (or a panic occurred). -/
def thresholdLoop (c1 c2 : ℚ) (f : ℚ → ℚ) (opt : OptimizationPolicy) (thresh : ℚ) :
    ℕ → ParticleSwarm → (ℕ → ℚ) → Option ParticleSwarm
  | 0, _, _ => none
  | fuel + 1, s, r =>
    match s.global_optimum with
    | none => none
    | some g =>
      if f g > thresh then
        match update s c1 c2 f opt r with
        | none => none
        | some t => thresholdLoop c1 c2 f opt thresh fuel t (rngAfter s r)
      else some s

/-- The termination dispatch of `main` (source lines 354-376): a fixed
iteration count runs `update` exactly that many times; otherwise the
error-threshold loop runs. -/
def mainLoop (c1 c2 : ℚ) (f : ℚ → ℚ) (opt : OptimizationPolicy)
    (iter : Option ℕ) (thresh : ℚ) (fuel : ℕ) (s : ParticleSwarm) (r : ℕ → ℚ) :
    Option ParticleSwarm :=
  match iter with
  | some i => iterateUpdate c1 c2 f opt i s r
  | none => thresholdLoop c1 c2 f opt thresh fuel s r

/-- The demo objective of `main`: `f(x) = (x - 1)^2` (source line 339). -/
def fdemo : ℚ → ℚ := fun x => (x - 1) * (x - 1)

/-- The spec's independent `direction_best` recomputation: the element of the
list whose objective value is least (`FindMinimum`) resp. greatest
(`FindMaximum`); first-encountered wins ties.  This is a spec-side definition,
used only to compare against the code's `global_optimum`. -/
def direction_best (f : ℚ → ℚ) (opt : OptimizationPolicy) : List ℚ → Option ℚ
  | [] => none
  | x :: xs =>
    some (xs.foldl
      (fun acc y =>
        match opt with
        | .FindMinimum => if f y < f acc then y else acc
        | .FindMaximum => if f y > f acc then y else acc)
      x)

/-- "no worse, per direction": `a` is at least as good an objective value as
`b` (≤ for minimization, ≥ for maximization). -/
def notWorse (opt : OptimizationPolicy) (a b : ℚ) : Prop :=
  match opt with
  | .FindMinimum => a ≤ b
  | .FindMaximum => b ≤ a

/-- Strict improvement per direction, as the personal-best pass tests it. -/
def improves (opt : OptimizationPolicy) (a b : ℚ) : Bool :=
  match opt with
  | .FindMinimum => decide (a < b)
  | .FindMaximum => decide (b < a)

/-- Well-formedness: the three per-particle sequences have equal length. -/
def WF (s : ParticleSwarm) : Prop :=
  s.velocity.length = s.position.length ∧ s.local_optimum.length = s.position.length

/-- Construction of the swarm followed by `k` update steps, as `main` performs
it with explicit initial vectors; the `Except` layer carries the construction
panics, the inner `Option` the update panics. -/
def runExplicit (n : ℕ) (x v : List ℚ) (f : ℚ → ℚ) (opt : OptimizationPolicy)
    (c1 c2 : ℚ) (k : ℕ) (r : ℕ → ℚ) : Except PsoError (Option ParticleSwarm) :=
  (ParticleSwarm.new n x v f opt).map (fun s => iterateUpdate c1 c2 f opt k s r)

/-- `enum ParseError` from the source (lines 163-170). -/
inductive ParseError
  | MissingArgument (s : String)
  | InvalidParticleNumber (s : String)
  | InvalidIterations (s : String)
  | InvalidThreshold (s : String)
  | InvalidSeed (s : String)
  | InvalidArgument (s : String)
deriving DecidableEq

/-- `struct RunOptions` from the source (lines 172-180); the `StdRng` field is
represented by the seed that built it (`none` = entropy-seeded). -/
structure RunOptions where
  n : ℕ
  iter : Option ℕ
  thresh : ℚ
  verbose : Bool
  init : Option (List ℚ)
  vinit : Option (List ℚ)
  seed : Option ℕ
deriving DecidableEq

/-- The mutable locals of `fn parse` while its `while` loop runs
(source lines 183-191). -/
structure ParseAcc where
  n : Option ℕ
  iter : Option ℕ
  verbose : Bool
  thresh : ℚ
  seed : Option ℕ
  init : Option (List ℚ)
  vinit : Option (List ℚ)
deriving DecidableEq

/-- The `while` loop of `fn parse` (source lines 193-275), one flag at a time.
The numeric conversions of the Rust standard library are abstracted as
injected total functions: `pu` models `str::parse::<usize>`, `pf` models
`str::parse::<f64>` (into `ℚ`), `ps` models `str::parse::<u64>`, and `pl`
models the comma-split-and-parse of `--init`/`--vinit` values together with
its per-component `InvalidArgument` error. -/
def parseLoop (pu : String → Option ℕ) (pf : String → Option ℚ) (ps : String → Option ℕ)
    (pl : String → Except ParseError (List ℚ)) :
    List String → ParseAcc → Except ParseError ParseAcc
  | [], acc => .ok acc
  | a :: rest, acc =>
    if a = "-n" then
      match rest with
      | [] => .error (.MissingArgument "-n")
      | b :: rest2 =>
        match pu b with
        | none => .error (.InvalidParticleNumber b)
        | some k => parseLoop pu pf ps pl rest2 ⟨some k, acc.iter, acc.verbose, acc.thresh, acc.seed, acc.init, acc.vinit⟩
    else if a = "-i" then
      match rest with
      | [] => .error (.MissingArgument "-i")
      | b :: rest2 =>
        match pu b with
        | none => .error (.InvalidIterations b)
        | some k => parseLoop pu pf ps pl rest2 ⟨acc.n, some k, acc.verbose, acc.thresh, acc.seed, acc.init, acc.vinit⟩
    else if a = "-e" then
      match rest with
      | [] => .error (.MissingArgument "-e")
      | b :: rest2 =>
        match pf b with
        | none => .error (.InvalidThreshold b)
        | some t => parseLoop pu pf ps pl rest2 ⟨acc.n, acc.iter, acc.verbose, t, acc.seed, acc.init, acc.vinit⟩
    else if a = "-v" then
      parseLoop pu pf ps pl rest ⟨acc.n, acc.iter, true, acc.thresh, acc.seed, acc.init, acc.vinit⟩
    else if a = "--seed" then
      match rest with
      | [] => .error (.MissingArgument "--seed")
      | b :: rest2 =>
        match ps b with
        | none => .error (.InvalidSeed b)
        | some sd => parseLoop pu pf ps pl rest2 ⟨acc.n, acc.iter, acc.verbose, acc.thresh, some sd, acc.init, acc.vinit⟩
    else if a = "--init" then
      match rest with
      | [] => .error (.MissingArgument "--init")
      | b :: rest2 =>
        match pl b with
        | .error err => .error err
        | .ok xs => parseLoop pu pf ps pl rest2 ⟨acc.n, acc.iter, acc.verbose, acc.thresh, acc.seed, some xs, acc.vinit⟩
    else if a = "--vinit" then
      match rest with
      | [] => .error (.MissingArgument "--vinit")
      | b :: rest2 =>
        match pl b with
        | .error err => .error err
        | .ok xs => parseLoop pu pf ps pl rest2 ⟨acc.n, acc.iter, acc.verbose, acc.thresh, acc.seed, acc.init, some xs⟩
    else .error (.InvalidArgument a)

/-- `fn parse` (source lines 182-286): run the flag loop over `args[1..]`
starting from the defaults (`thresh = 0.0001`, nothing else set), then require
`-n` to have been provided. -/
def parse (pu : String → Option ℕ) (pf : String → Option ℚ) (ps : String → Option ℕ)
    (pl : String → Except ParseError (List ℚ)) (args : List String) :
    Except ParseError RunOptions :=
  match parseLoop pu pf ps pl (args.drop 1) ⟨none, none, false, 1 / 10000, none, none, none⟩ with
  | .error err => .error err
  | .ok acc =>
    match acc.n with
    | none => .error (.MissingArgument "-n")
    | some n => .ok ⟨n, acc.iter, acc.thresh, acc.verbose, acc.init, acc.vinit, acc.seed⟩

/-- Statement-side grammar of the argument lists `fn parse`'s loop walks
without error: a sequence of flag blocks, in any order and with repetitions,
where every value token is accepted by the corresponding injected numeric
parser.  The three indices record the EFFECTIVE `-i`, `-n` and `-e` values —
`none` when the flag never occurs, otherwise the value of its last occurrence,
since the loop overwrites on each occurrence (`Option.getD` of the tail's
index against the current block's value realizes last-wins). -/
inductive FlagsIter (pu : String → Option ℕ) (pf : String → Option ℚ)
    (ps : String → Option ℕ) (pl : String → Except ParseError (List ℚ)) :
    List String → Option ℕ → Option ℕ → Option ℚ → Prop
  | nil : FlagsIter pu pf ps pl [] none none none
  | nFlag {rest : List String} {it nv : Option ℕ} {tv : Option ℚ} (b : String) (k : ℕ)
      (hb : pu b = some k) (h : FlagsIter pu pf ps pl rest it nv tv) :
      FlagsIter pu pf ps pl ("-n" :: b :: rest) it (some (nv.getD k)) tv
  | iFlag {rest : List String} {it nv : Option ℕ} {tv : Option ℚ} (b : String) (k : ℕ)
      (hb : pu b = some k) (h : FlagsIter pu pf ps pl rest it nv tv) :
      FlagsIter pu pf ps pl ("-i" :: b :: rest) (some (it.getD k)) nv tv
  | eFlag {rest : List String} {it nv : Option ℕ} {tv : Option ℚ} (b : String) (t : ℚ)
      (hb : pf b = some t) (h : FlagsIter pu pf ps pl rest it nv tv) :
      FlagsIter pu pf ps pl ("-e" :: b :: rest) it nv (some (tv.getD t))
  | vFlag {rest : List String} {it nv : Option ℕ} {tv : Option ℚ}
      (h : FlagsIter pu pf ps pl rest it nv tv) :
      FlagsIter pu pf ps pl ("-v" :: rest) it nv tv
  | seedFlag {rest : List String} {it nv : Option ℕ} {tv : Option ℚ} (b : String) (k : ℕ)
      (hb : ps b = some k) (h : FlagsIter pu pf ps pl rest it nv tv) :
      FlagsIter pu pf ps pl ("--seed" :: b :: rest) it nv tv
  | initFlag {rest : List String} {it nv : Option ℕ} {tv : Option ℚ} (b : String) (xs : List ℚ)
      (hb : pl b = .ok xs) (h : FlagsIter pu pf ps pl rest it nv tv) :
      FlagsIter pu pf ps pl ("--init" :: b :: rest) it nv tv
  | vinitFlag {rest : List String} {it nv : Option ℕ} {tv : Option ℚ} (b : String) (xs : List ℚ)
      (hb : pl b = .ok xs) (h : FlagsIter pu pf ps pl rest it nv tv) :
      FlagsIter pu pf ps pl ("--vinit" :: b :: rest) it nv tv

/-- The swarm of the spec's monotonicity example: one particle at position 5
with zero velocity, personal best 5 and global best 5. -/
def sStar : ParticleSwarm := ⟨[5], [0], [5], some 5⟩

end PSO

deriving instance DecidableEq for Except

namespace PSO

lemma getD_zipWith (g : ℚ → ℚ → ℚ) (l1 l2 : List ℚ) (i : ℕ)
    (h1 : i < l1.length) (h2 : i < l2.length) :
    (List.zipWith g l1 l2).getD i 0 = g (l1.getD i 0) (l2.getD i 0) := by
  have hl : i < (List.zipWith g l1 l2).length := by
    simp [List.length_zipWith]; omega
  rw [List.getD_eq_getElem _ _ hl, List.getD_eq_getElem _ _ h1, List.getD_eq_getElem _ _ h2,
    List.getElem_zipWith]

lemma getD_rangeMap (g : ℕ → ℚ) (n i : ℕ) (h : i < n) :
    ((List.range n).map g).getD i 0 = g i := by
  have hl : i < ((List.range n).map g).length := by simp; omega
  rw [List.getD_eq_getElem _ _ hl]
  simp

lemma getD_oob (l : List ℚ) (i : ℕ) (h : l.length ≤ i) : l.getD i 0 = 0 :=
  List.getD_eq_default _ _ h

lemma maxBy_some (cmp : ℚ → ℚ → Ordering) (l : List ℚ) (h : l ≠ []) :
    ∃ g, maxBy cmp l = some g := by
  cases l with
  | nil => exact absurd rfl h
  | cons a t => exact ⟨_, rfl⟩

lemma stepLocal_length (f : ℚ → ℚ) (opt : OptimizationPolicy) (pos loc : List ℚ) :
    (stepLocal f opt pos loc).length = min pos.length loc.length := by
  simp [stepLocal, List.length_zipWith]

lemma posStep_length (s : ParticleSwarm) (hWF : WF s) :
    (posStep s).length = s.position.length := by
  simp [posStep, List.length_zipWith, hWF.1]

lemma velStep_length (vel loc pos : List ℚ) (g c1 c2 : ℚ) (r : ℕ → ℚ) :
    (velStep vel loc pos g c1 c2 r).length = vel.length := by
  simp [velStep]

lemma update_ok {s : ParticleSwarm} {c1 c2 : ℚ} {f : ℚ → ℚ} {opt : OptimizationPolicy}
    {r : ℕ → ℚ} {s' : ParticleSwarm} (h : update s c1 c2 f opt r = some s') :
    ∃ g, maxBy (updateCmp f opt) (stepLocal f opt (posStep s) s.local_optimum) = some g ∧
      s' = ⟨posStep s,
            velStep s.velocity (stepLocal f opt (posStep s) s.local_optimum) (posStep s) g c1 c2 r,
            stepLocal f opt (posStep s) s.local_optimum,
            some g⟩ := by
  unfold update at h
  split at h
  · exact absurd h (by simp)
  · rename_i g hg
    exact ⟨g, hg, (Option.some.inj h).symm⟩

lemma update_isSome {s : ParticleSwarm} (c1 c2 : ℚ) (f : ℚ → ℚ) (opt : OptimizationPolicy)
    (r : ℕ → ℚ) (hWF : WF s) (hne : s.position ≠ []) :
    ∃ s', update s c1 c2 f opt r = some s' := by
  have hlen : (stepLocal f opt (posStep s) s.local_optimum).length = s.position.length := by
    rw [stepLocal_length, posStep_length s hWF, hWF.2]
    simp
  have hne2 : stepLocal f opt (posStep s) s.local_optimum ≠ [] := by
    intro hc
    rw [hc] at hlen
    simp at hlen
    exact hne (List.length_eq_zero.mp hlen.symm)
  obtain ⟨g, hg⟩ := maxBy_some (updateCmp f opt) _ hne2
  exact ⟨_, by unfold update; rw [hg]⟩

lemma update_preserves {s : ParticleSwarm} {c1 c2 : ℚ} {f : ℚ → ℚ} {opt : OptimizationPolicy}
    {r : ℕ → ℚ} {s' : ParticleSwarm} (hWF : WF s) (h : update s c1 c2 f opt r = some s') :
    WF s' ∧ s'.position.length = s.position.length := by
  obtain ⟨g, hg, rfl⟩ := update_ok h
  have hp := posStep_length s hWF
  refine ⟨⟨?_, ?_⟩, hp⟩
  · simp only [velStep_length, hp, hWF.1]
  · simp only [stepLocal_length, hp, hWF.2]
    simp

lemma notWorse_refl (opt : OptimizationPolicy) (a : ℚ) : notWorse opt a a := by
  cases opt <;> simp [notWorse]

lemma notWorse_trans {opt : OptimizationPolicy} {a b c : ℚ}
    (h1 : notWorse opt a b) (h2 : notWorse opt b c) : notWorse opt a c := by
  cases opt
  · exact le_trans h1 h2
  · exact le_trans h2 h1

lemma stepLocal_getD (f : ℚ → ℚ) (opt : OptimizationPolicy) (pos loc : List ℚ) (i : ℕ)
    (h1 : i < pos.length) (h2 : i < loc.length) :
    (stepLocal f opt pos loc).getD i 0 =
      if improves opt (f (pos.getD i 0)) (f (loc.getD i 0))
      then pos.getD i 0 else loc.getD i 0 := by
  unfold stepLocal
  rw [getD_zipWith _ _ _ _ h1 h2]
  cases opt <;> simp [improves]

lemma stepLocal_notWorse_pos (f : ℚ → ℚ) (opt : OptimizationPolicy) (pos loc : List ℚ)
    (hlen : loc.length = pos.length) (i : ℕ) :
    notWorse opt (f ((stepLocal f opt pos loc).getD i 0)) (f (pos.getD i 0)) := by
  by_cases h : i < pos.length
  · rw [stepLocal_getD f opt pos loc i h (hlen ▸ h)]
    cases opt <;> simp only [improves, notWorse] <;> split
    · exact le_refl _
    · rename_i hc; simp only [decide_eq_true_eq, not_lt] at hc; exact hc
    · exact le_refl _
    · rename_i hc; simp only [decide_eq_true_eq, not_lt] at hc; exact hc
  · push_neg at h
    rw [getD_oob pos i h, getD_oob (stepLocal f opt pos loc) i (by
      rw [stepLocal_length]; omega)]
    exact notWorse_refl opt (f 0)

lemma stepLocal_notWorse_loc (f : ℚ → ℚ) (opt : OptimizationPolicy) (pos loc : List ℚ)
    (hlen : loc.length = pos.length) (i : ℕ) :
    notWorse opt (f ((stepLocal f opt pos loc).getD i 0)) (f (loc.getD i 0)) := by
  by_cases h : i < pos.length
  · rw [stepLocal_getD f opt pos loc i h (hlen ▸ h)]
    cases opt <;> simp only [improves, notWorse] <;> split
    · rename_i hc; simp only [decide_eq_true_eq] at hc; exact le_of_lt hc
    · exact le_refl _
    · rename_i hc; simp only [decide_eq_true_eq] at hc; exact le_of_lt hc
    · exact le_refl _
  · push_neg at h
    rw [getD_oob loc i (by omega), getD_oob (stepLocal f opt pos loc) i (by
      rw [stepLocal_length]; omega)]
    exact notWorse_refl opt (f 0)

lemma new_ok_elim {n : ℕ} {x v : List ℚ} {f : ℚ → ℚ} {opt : OptimizationPolicy}
    {s : ParticleSwarm} (h : ParticleSwarm.new n x v f opt = .ok s) :
    s.position = x ∧ s.velocity = v ∧ s.local_optimum = x ∧
    x.length = n ∧ v.length = n ∧ x ≠ [] ∧
    ∃ g, maxBy (ctorCmp f opt) x = some g ∧ s.global_optimum = some g := by
  unfold ParticleSwarm.new at h
  split at h
  · exact absurd h (by simp)
  · split at h
    · exact absurd h (by simp)
    · rename_i hx hv
      push_neg at hx hv
      split at h
      · exact absurd h (by simp)
      · rename_i g hg
        have hs := Except.ok.inj h
        subst hs
        refine ⟨rfl, rfl, rfl, hx, hv, ?_, g, hg, rfl⟩
        intro hc
        subst hc
        simp [maxBy] at hg

lemma new_WF {n : ℕ} {x v : List ℚ} {f : ℚ → ℚ} {opt : OptimizationPolicy}
    {s : ParticleSwarm} (h : ParticleSwarm.new n x v f opt = .ok s) :
    WF s ∧ s.position ≠ [] ∧ s.local_optimum = s.position := by
  obtain ⟨hp, hv, hl, hxn, hvn, hne, -⟩ := new_ok_elim h
  constructor
  · constructor
    · rw [hp, hv]; omega
    · rw [hp, hl]
  · rw [hp, hl]
    exact ⟨hne, rfl⟩

lemma update_local_notWorse {s : ParticleSwarm} {c1 c2 : ℚ} {f : ℚ → ℚ}
    {opt : OptimizationPolicy} {r : ℕ → ℚ} {s' : ParticleSwarm}
    (hWF : WF s) (h : update s c1 c2 f opt r = some s') (i : ℕ) :
    notWorse opt (f (s'.local_optimum.getD i 0)) (f (s.local_optimum.getD i 0)) := by
  obtain ⟨g, hg, rfl⟩ := update_ok h
  exact stepLocal_notWorse_loc f opt (posStep s) s.local_optimum
    (by rw [posStep_length s hWF, hWF.2]) i

lemma update_local_notWorse_pos {s : ParticleSwarm} {c1 c2 : ℚ} {f : ℚ → ℚ}
    {opt : OptimizationPolicy} {r : ℕ → ℚ} {s' : ParticleSwarm}
    (hWF : WF s) (h : update s c1 c2 f opt r = some s') (i : ℕ) :
    notWorse opt (f (s'.local_optimum.getD i 0)) (f (s'.position.getD i 0)) := by
  obtain ⟨g, hg, rfl⟩ := update_ok h
  exact stepLocal_notWorse_pos f opt (posStep s) s.local_optimum
    (by rw [posStep_length s hWF, hWF.2]) i

lemma iterate_local_mono (c1 c2 : ℚ) (f : ℚ → ℚ) (opt : OptimizationPolicy) :
    ∀ (k : ℕ) {s : ParticleSwarm} {r : ℕ → ℚ} {t : ParticleSwarm}, WF s →
      iterateUpdate c1 c2 f opt k s r = some t →
      WF t ∧ t.position.length = s.position.length ∧
        ∀ i, notWorse opt (f (t.local_optimum.getD i 0)) (f (s.local_optimum.getD i 0))
  | 0, s, r, t, hWF, h => by
    have ht : t = s := (Option.some.inj h).symm
    subst ht
    exact ⟨hWF, rfl, fun i => notWorse_refl opt _⟩
  | k + 1, s, r, t, hWF, h => by
    unfold iterateUpdate at h
    split at h
    · exact absurd h (by simp)
    · rename_i u hu
      obtain ⟨hWFu, hlenu⟩ := update_preserves hWF hu
      obtain ⟨hWFt, hlent, hmono⟩ := iterate_local_mono c1 c2 f opt k hWFu h
      refine ⟨hWFt, by omega, fun i => ?_⟩
      exact notWorse_trans (hmono i) (update_local_notWorse hWF hu i)

lemma iterate_LP (c1 c2 : ℚ) (f : ℚ → ℚ) (opt : OptimizationPolicy) :
    ∀ (k : ℕ) {s : ParticleSwarm} {r : ℕ → ℚ} {t : ParticleSwarm}, WF s →
      (∀ i, notWorse opt (f (s.local_optimum.getD i 0)) (f (s.position.getD i 0))) →
      iterateUpdate c1 c2 f opt k s r = some t →
      ∀ i, notWorse opt (f (t.local_optimum.getD i 0)) (f (t.position.getD i 0))
  | 0, s, r, t, hWF, hLP, h => by
    have ht : t = s := (Option.some.inj h).symm
    subst ht
    exact hLP
  | k + 1, s, r, t, hWF, hLP, h => by
    unfold iterateUpdate at h
    split at h
    · exact absurd h (by simp)
    · rename_i u hu
      obtain ⟨hWFu, -⟩ := update_preserves hWF hu
      exact iterate_LP c1 c2 f opt k hWFu (fun i => update_local_notWorse_pos hWF hu i) h

lemma iterate_split (c1 c2 : ℚ) (f : ℚ → ℚ) (opt : OptimizationPolicy) :
    ∀ (j m : ℕ) {s : ParticleSwarm} {r : ℕ → ℚ} {u : ParticleSwarm},
      iterateUpdate c1 c2 f opt (j + m) s r = some u →
      ∃ t r2, iterateUpdate c1 c2 f opt j s r = some t ∧
        iterateUpdate c1 c2 f opt m t r2 = some u
  | 0, m, s, r, u, h => ⟨s, r, rfl, by rw [Nat.zero_add] at h; exact h⟩
  | j + 1, m, s, r, u, h => by
    have he : j + 1 + m = (j + m) + 1 := by omega
    rw [he] at h
    unfold iterateUpdate at h
    split at h
    · exact absurd h (by simp)
    · rename_i w hw
      obtain ⟨t, r2, h1, h2⟩ := iterate_split c1 c2 f opt j m h
      refine ⟨t, r2, ?_, h2⟩
      unfold iterateUpdate
      rw [hw]
      exact h1

lemma update_sStar (c1 c2 : ℚ) (r : ℕ → ℚ) :
    update sStar c1 c2 fdemo .FindMinimum r = some sStar := by
  have h55 : ¬ (fdemo (5 + 0) < fdemo 5) := by norm_num [fdemo]
  simp [update, sStar, posStep, stepLocal, velStep, maxBy, updateCmp, List.range_succ, h55]

lemma new_sStar : ParticleSwarm.new 1 [5] [0] fdemo .FindMinimum = .ok sStar := by
  simp [ParticleSwarm.new, maxBy, ctorCmp, sStar]

lemma thresholdLoop_sStar :
    ∀ (fuel : ℕ) (r : ℕ → ℚ),
      thresholdLoop (1 / 2) (1 / 2) fdemo .FindMinimum (1 / 10000) fuel sStar r = none
  | 0, r => rfl
  | fuel + 1, r => by
    have hgt : fdemo 5 > 1 / 10000 := by norm_num [fdemo]
    unfold thresholdLoop
    rw [update_sStar]
    simp only [sStar, hgt, if_true, gt_iff_lt]
    exact thresholdLoop_sStar fuel _

lemma parseLoop_flags {pu : String → Option ℕ} {pf : String → Option ℚ}
    {ps : String → Option ℕ} {pl : String → Except ParseError (List ℚ)}
    {args : List String} {it nv : Option ℕ} {tv : Option ℚ}
    (h : FlagsIter pu pf ps pl args it nv tv) :
    ∀ acc : ParseAcc, ∃ acc' : ParseAcc,
      parseLoop pu pf ps pl args acc = .ok acc' ∧
      acc'.n = nv.or acc.n ∧ acc'.iter = it.or acc.iter ∧ acc'.thresh = tv.getD acc.thresh := by
  induction h with
  | nil =>
    intro acc
    exact ⟨acc, rfl, by cases acc.n <;> rfl, by cases acc.iter <;> rfl, rfl⟩
  | nFlag b k hb h2 ih =>
    intro acc
    obtain ⟨acc', hp, hn, hi, ht⟩ :=
      ih ⟨some k, acc.iter, acc.verbose, acc.thresh, acc.seed, acc.init, acc.vinit⟩
    refine ⟨acc', ?_, ?_, hi, ht⟩
    · simp [parseLoop, hb]
      exact hp
    · rw [hn]
      rename_i nv2 _
      cases nv2 <;> rfl
  | iFlag b k hb h2 ih =>
    intro acc
    obtain ⟨acc', hp, hn, hi, ht⟩ :=
      ih ⟨acc.n, some k, acc.verbose, acc.thresh, acc.seed, acc.init, acc.vinit⟩
    refine ⟨acc', ?_, hn, ?_, ht⟩
    · simp [parseLoop, hb]
      exact hp
    · rw [hi]
      rename_i it2 _ _
      cases it2 <;> rfl
  | eFlag b t hb h2 ih =>
    intro acc
    obtain ⟨acc', hp, hn, hi, ht⟩ :=
      ih ⟨acc.n, acc.iter, acc.verbose, t, acc.seed, acc.init, acc.vinit⟩
    refine ⟨acc', ?_, hn, hi, ?_⟩
    · simp [parseLoop, hb]
      exact hp
    · rw [ht]
      rename_i tv2 _
      cases tv2 <;> rfl
  | vFlag h2 ih =>
    intro acc
    obtain ⟨acc', hp, hn, hi, ht⟩ :=
      ih ⟨acc.n, acc.iter, true, acc.thresh, acc.seed, acc.init, acc.vinit⟩
    refine ⟨acc', ?_, hn, hi, ht⟩
    · rw [parseLoop.eq_def]
      simp only [String.reduceEq, if_false, if_true, reduceIte]
      exact hp
  | seedFlag b k hb h2 ih =>
    intro acc
    obtain ⟨acc', hp, hn, hi, ht⟩ :=
      ih ⟨acc.n, acc.iter, acc.verbose, acc.thresh, some k, acc.init, acc.vinit⟩
    refine ⟨acc', ?_, hn, hi, ht⟩
    simp [parseLoop, hb]
    exact hp
  | initFlag b xs hb h2 ih =>
    intro acc
    obtain ⟨acc', hp, hn, hi, ht⟩ :=
      ih ⟨acc.n, acc.iter, acc.verbose, acc.thresh, acc.seed, some xs, acc.vinit⟩
    refine ⟨acc', ?_, hn, hi, ht⟩
    simp [parseLoop, hb]
    exact hp
  | vinitFlag b xs hb h2 ih =>
    intro acc
    obtain ⟨acc', hp, hn, hi, ht⟩ :=
      ih ⟨acc.n, acc.iter, acc.verbose, acc.thresh, acc.seed, acc.init, some xs⟩
    refine ⟨acc', ?_, hn, hi, ht⟩
    simp [parseLoop, hb]
    exact hp

end PSO

namespace PSO

/-- C1: the code contradicts the claim (code bug).  With `f(x) = (x-1)^2` and
`FindMinimum`, explicit construction over positions `[0, 5]` stores
`global_optimum = 5`, the element MAXIMIZING `f` (`f 0 = 1 < 16 = f 5`),
rather than the `f`-minimizing element `0` the claim requires — the
constructors pass `max_by` the orientation-reversed comparator w.r.t.
`update`'s; randomized construction over drawn positions `[0, 5]` does the
same. -/
theorem claim1_ctor_selects_worst :
    ParticleSwarm.new 2 [0, 5] [0, 0] fdemo .FindMinimum =
        .ok ⟨[0, 5], [0, 0], [0, 5], some 5⟩
    ∧ direction_best fdemo .FindMinimum [0, 5] = some 0
    ∧ fdemo 0 < fdemo 5
    ∧ ParticleSwarm.new_random 2 fdemo .FindMinimum (fun k => [0, 5, 5, 0].getD k 0) =
        .ok ⟨[0, 5], [5, 0], [0, 5], some 5⟩ := by
  have h05 : compare (fdemo 0) (fdemo 5) = Ordering.lt :=
    compare_lt_iff_lt.mpr (by norm_num [fdemo])
  have h50 : ¬ (fdemo 5 < fdemo 0) := by norm_num [fdemo]
  refine ⟨?_, ?_, by norm_num [fdemo], ?_⟩
  · simp [ParticleSwarm.new, maxBy, ctorCmp, h05]
  · simp [direction_best, h50]
  · simp [ParticleSwarm.new_random, maxBy, ctorCmp, List.range_succ, h05]

/-- C2: the code contradicts the claim (code bug).  The state reachable by
construction followed by zero update steps violates the invariant: over
positions `[2, 7]` the constructor stores `global_optimum = 7`, while the
direction-best element of `personal_best = [2, 7]` is `2`
(`f 2 = 1 < 36 = f 7`). -/
theorem claim2_invariant_fails_at_construction :
    ∃ s : ParticleSwarm,
      ParticleSwarm.new 2 [2, 7] [0, 0] fdemo .FindMinimum = .ok s ∧
      iterateUpdate (1 / 2) (1 / 2) fdemo .FindMinimum 0 s (fun _ => 0) = some s ∧
      s.global_optimum = some 7 ∧
      direction_best fdemo .FindMinimum s.local_optimum = some 2 ∧
      s.global_optimum ≠ direction_best fdemo .FindMinimum s.local_optimum := by
  have h27 : compare (fdemo 2) (fdemo 7) = Ordering.lt :=
    compare_lt_iff_lt.mpr (by norm_num [fdemo])
  have h72 : ¬ (fdemo 7 < fdemo 2) := by norm_num [fdemo]
  refine ⟨⟨[2, 7], [0, 0], [2, 7], some 7⟩, ?_, rfl, rfl, ?_, ?_⟩
  · simp [ParticleSwarm.new, maxBy, ctorCmp, h27]
  · simp [direction_best, h72]
  · simp [direction_best, h72]

/-- C3: confirmed.  First conjunct: in one `update` step, particle `i`'s
personal best becomes the new position exactly when the objective value at the
new position strictly improves on the recorded best per the direction, and is
left unchanged otherwise (ties included).  Second conjunct: along any run from
a constructed swarm, the personal best's objective value after `k` steps is
never worse, per direction, than the objective value of the position held
after any earlier number `j ≤ k` of steps. -/
theorem claim3_personal_best (c1 c2 : ℚ) (f : ℚ → ℚ) (opt : OptimizationPolicy)
    (n : ℕ) (x v : List ℚ) (s0 : ParticleSwarm) (r : ℕ → ℚ)
    (h0 : ParticleSwarm.new n x v f opt = .ok s0) :
    (∀ (s s' : ParticleSwarm) (rr : ℕ → ℚ), WF s →
      update s c1 c2 f opt rr = some s' →
      ∀ i, i < s.position.length →
        s'.local_optimum.getD i 0 =
          if improves opt (f (s'.position.getD i 0)) (f (s.local_optimum.getD i 0))
          then s'.position.getD i 0 else s.local_optimum.getD i 0)
    ∧ ∀ (k j : ℕ), j ≤ k → ∀ (sj sk : ParticleSwarm),
        iterateUpdate c1 c2 f opt j s0 r = some sj →
        iterateUpdate c1 c2 f opt k s0 r = some sk →
        ∀ i, notWorse opt (f (sk.local_optimum.getD i 0)) (f (sj.position.getD i 0)) := by
  constructor
  · intro s s' rr hWF h i hi
    obtain ⟨g, hg, rfl⟩ := update_ok h
    exact stepLocal_getD f opt (posStep s) s.local_optimum i
      (by rw [posStep_length s hWF]; exact hi) (by rw [hWF.2]; exact hi)
  · intro k j hjk sj sk hj hk
    obtain ⟨hWF0, hne0, hl0⟩ := new_WF h0
    obtain ⟨hWFj, hlenj, -⟩ := iterate_local_mono c1 c2 f opt j hWF0 hj
    have hk2 : iterateUpdate c1 c2 f opt (j + (k - j)) s0 r = some sk := by
      rw [Nat.add_sub_cancel' hjk]; exact hk
    obtain ⟨t, r2, ht, h2⟩ := iterate_split c1 c2 f opt j (k - j) hk2
    have htj : t = sj := by rw [hj] at ht; exact (Option.some.inj ht).symm
    subst htj
    obtain ⟨-, -, hmono⟩ := iterate_local_mono c1 c2 f opt (k - j) hWFj h2
    intro i
    refine notWorse_trans (hmono i) ?_
    have hLP0 : ∀ i2, notWorse opt (f (s0.local_optimum.getD i2 0)) (f (s0.position.getD i2 0)) := by
      intro i2; rw [hl0]; exact notWorse_refl opt _
    exact iterate_LP c1 c2 f opt j hWF0 hLP0 hj i

/-- C3 witness: the theorem applied to the demo objective, `FindMinimum`, one
particle at position 5 with velocity 0, coefficients 0.5 and the constant-zero
random stream. -/
theorem claim3_personal_best_witness :
    (∀ (s s' : ParticleSwarm) (rr : ℕ → ℚ), WF s →
      update s (1 / 2) (1 / 2) fdemo .FindMinimum rr = some s' →
      ∀ i, i < s.position.length →
        s'.local_optimum.getD i 0 =
          if improves .FindMinimum (fdemo (s'.position.getD i 0)) (fdemo (s.local_optimum.getD i 0))
          then s'.position.getD i 0 else s.local_optimum.getD i 0)
    ∧ ∀ (k j : ℕ), j ≤ k → ∀ (sj sk : ParticleSwarm),
        iterateUpdate (1 / 2) (1 / 2) fdemo .FindMinimum j sStar (fun _ => 0) = some sj →
        iterateUpdate (1 / 2) (1 / 2) fdemo .FindMinimum k sStar (fun _ => 0) = some sk →
        ∀ i, notWorse .FindMinimum (fdemo (sk.local_optimum.getD i 0))
          (fdemo (sj.position.getD i 0)) :=
  claim3_personal_best (1 / 2) (1 / 2) fdemo .FindMinimum 1 [5] [0] sStar (fun _ => 0) new_sStar

/-- C4: confirmed.  In every successful `update` step the new velocity of
particle `i` is `1 ·` the old velocity plus `cognitive · r1 · (personal_best −
position)` plus `social · r2 · (global_best − position)`, where `r1, r2` are
the two fresh draws `r (2*i)`, `r (2*i+1)` taken for particle `i`, the
position is the post-update one and the global best is the one freshly
recomputed (by `max_by` over the updated personal bests) in this very step. -/
theorem claim4_velocity_rule (c1 c2 : ℚ) (f : ℚ → ℚ) (opt : OptimizationPolicy)
    (s s' : ParticleSwarm) (r : ℕ → ℚ)
    (h : update s c1 c2 f opt r = some s') :
    ∃ g, s'.global_optimum = some g ∧
      maxBy (updateCmp f opt) s'.local_optimum = some g ∧
      ∀ i, i < s.velocity.length →
        s'.velocity.getD i 0 =
          1 * s.velocity.getD i 0
          + c1 * r (2 * i) * (s'.local_optimum.getD i 0 - s'.position.getD i 0)
          + c2 * r (2 * i + 1) * (g - s'.position.getD i 0) := by
  obtain ⟨g, hg, rfl⟩ := update_ok h
  refine ⟨g, rfl, hg, fun i hi => ?_⟩
  show (velStep s.velocity (stepLocal f opt (posStep s) s.local_optimum)
    (posStep s) g c1 c2 r).getD i 0 = _
  unfold velStep
  rw [getD_rangeMap _ _ i hi, one_mul]

/-- C4 witness: the theorem applied to the one-particle fixpoint state with
the constant-zero random stream. -/
theorem claim4_velocity_rule_witness :
    ∃ g, sStar.global_optimum = some g ∧
      maxBy (updateCmp fdemo .FindMinimum) sStar.local_optimum = some g ∧
      ∀ i, i < sStar.velocity.length →
        sStar.velocity.getD i 0 =
          1 * sStar.velocity.getD i 0
          + (1 / 2) * (0 : ℚ) * (sStar.local_optimum.getD i 0 - sStar.position.getD i 0)
          + (1 / 2) * (0 : ℚ) * (g - sStar.position.getD i 0) :=
  claim4_velocity_rule (1 / 2) (1 / 2) fdemo .FindMinimum sStar sStar (fun _ => 0)
    (update_sStar (1 / 2) (1 / 2) (fun _ => 0))

/-- C5: confirmed.  Explicit construction fails with `dimensionMismatch`
exactly when the position or the velocity sequence has length other than `n`
(in particular for a position of length `n + 1`), and a successful
construction keeps both sequences exactly as given — no truncation, no
padding. -/
theorem claim5_dimension_check (n : ℕ) (x v : List ℚ) (f : ℚ → ℚ)
    (opt : OptimizationPolicy) :
    (ParticleSwarm.new n x v f opt = .error .dimensionMismatch ↔
      x.length ≠ n ∨ v.length ≠ n)
    ∧ ∀ s, ParticleSwarm.new n x v f opt = .ok s →
        s.position = x ∧ s.velocity = v ∧ s.position.length = n ∧ s.velocity.length = n := by
  constructor
  · constructor
    · intro h
      by_contra hc
      push_neg at hc
      unfold ParticleSwarm.new at h
      rw [if_neg (by simp [hc.1]), if_neg (by simp [hc.2])] at h
      split at h
      · exact absurd (Except.error.inj h) (by simp)
      · exact absurd h (by simp)
    · intro h
      unfold ParticleSwarm.new
      by_cases h1 : x.length = n
      · rcases h with h | h
        · exact absurd h1 h
        · rw [if_neg (by simp [h1]), if_pos (by simp [h])]
      · rw [if_pos (by simp [h1])]
  · intro s h
    obtain ⟨hp, hv, -, hxn, hvn, -, -⟩ := new_ok_elim h
    exact ⟨hp, hv, by rw [hp]; exact hxn, by rw [hv]; exact hvn⟩

/-- C5 witness: a position of length 2 with 1 particle requested is rejected
with `dimensionMismatch`. -/
theorem claim5_dimension_check_witness :
    ParticleSwarm.new 1 [0, 1] [0] fdemo .FindMinimum = .error .dimensionMismatch :=
  (claim5_dimension_check 1 [0, 1] [0] fdemo .FindMinimum).1.mpr (Or.inl (by decide))

/-- C6: the code contradicts the claim (code bug).  At `n = 0`, both
constructors reach the `.unwrap()` of `max_by` over the empty copied
`local_optimum` and panic — the `panicUnwrapNone` error of the embedding —
instead of an explicit `EmptySwarm` failure or a swarm with unset
`global_optimum`. -/
theorem claim6_empty_swarm_panics :
    (∀ (f : ℚ → ℚ) (opt : OptimizationPolicy),
      ParticleSwarm.new 0 [] [] f opt = .error .panicUnwrapNone)
    ∧ ∀ (f : ℚ → ℚ) (opt : OptimizationPolicy) (r : ℕ → ℚ),
      ParticleSwarm.new_random 0 f opt r = .error .panicUnwrapNone :=
  ⟨fun _ _ => rfl, fun _ _ _ => rfl⟩

/-- C7: the code contradicts the claim (code bug).  The error-threshold loop
of `main` has no iteration cap: on the constructible one-particle state with
position 5 and velocity 0 (`f(5) = 16 > 0.0001`, and `update` leaves the state
unchanged for EVERY random stream), the loop condition never fails, so for
every fuel bound and every stream the embedded loop exhausts its fuel
(`none`) — the source program loops forever with no non-convergence error. -/
theorem claim7_no_iteration_cap :
    ParticleSwarm.new 1 [5] [0] fdemo .FindMinimum = .ok sStar
    ∧ ∀ (fuel : ℕ) (r : ℕ → ℚ),
        thresholdLoop (1 / 2) (1 / 2) fdemo .FindMinimum (1 / 10000) fuel sStar r = none
        ∧ mainLoop (1 / 2) (1 / 2) fdemo .FindMinimum none (1 / 10000) fuel sStar r = none :=
  ⟨new_sStar, fun fuel r => ⟨thresholdLoop_sStar fuel r, thresholdLoop_sStar fuel r⟩⟩

/-- C8: confirmed.  For `f(x) = (x-1)^2`, `FindMinimum`, one particle with
position `[5]` and velocity `[0]`, coefficients `0.5`: after exactly one
update step whose two random draws are both 0, the position sequence is still
`[5]` — the position pass adds the velocity from BEFORE this step. -/
theorem claim8_literal_trace :
    ParticleSwarm.new 1 [5] [0] fdemo .FindMinimum = .ok sStar
    ∧ update sStar (1 / 2) (1 / 2) fdemo .FindMinimum (fun _ => 0) = some sStar
    ∧ sStar.position = [5] :=
  ⟨new_sStar, update_sStar (1 / 2) (1 / 2) (fun _ => 0), rfl⟩

/-- C9: confirmed.  The run — explicit construction followed by any number of
update steps — is a pure function of the particle count, the initial
sequences, the objective, the direction, the coefficients and the random
stream: two runs whose inputs (and seeded draw sequences) coincide produce
identical states at every step count `k`. -/
theorem claim9_determinism (n1 n2 : ℕ) (x1 x2 v1 v2 : List ℚ) (f1 f2 : ℚ → ℚ)
    (opt1 opt2 : OptimizationPolicy) (a1 b1 a2 b2 : ℚ) (k1 k2 : ℕ) (r1 r2 : ℕ → ℚ)
    (hn : n1 = n2) (hx : x1 = x2) (hv : v1 = v2) (hf : f1 = f2) (ho : opt1 = opt2)
    (ha : a1 = a2) (hb : b1 = b2) (hk : k1 = k2) (hr : r1 = r2) :
    runExplicit n1 x1 v1 f1 opt1 a1 b1 k1 r1 = runExplicit n2 x2 v2 f2 opt2 a2 b2 k2 r2 := by
  subst hn hx hv hf ho ha hb hk hr
  rfl

/-- C9 witness: the theorem applied to two textually identical runs of three
steps from position `[5]`, velocity `[0]`. -/
theorem claim9_determinism_witness :
    runExplicit 1 [5] [0] fdemo .FindMinimum (1 / 2) (1 / 2) 3 (fun _ => 0) =
      runExplicit 1 [5] [0] fdemo .FindMinimum (1 / 2) (1 / 2) 3 (fun _ => 0) :=
  claim9_determinism 1 1 [5] [5] [0] [0] fdemo fdemo .FindMinimum .FindMinimum
    (1 / 2) (1 / 2) (1 / 2) (1 / 2) 3 3 (fun _ => 0) (fun _ => 0)
    rfl rfl rfl rfl rfl rfl rfl rfl rfl

/-- C10 counterexample: an argument list containing a valid `-i 5` and a valid
`-e 0.5` (the injected numeric parsers accept exactly those strings) on which
`parse` nonetheless fails — `-n` is missing, so parsing does NOT succeed for
every such list. -/
theorem claim10_counterexample :
    parse (fun s => if s = "5" then some 5 else none)
          (fun s => if s = "0.5" then some (1 / 2 : ℚ) else none)
          (fun _ => none) (fun s => .error (.InvalidArgument s))
          ["pso", "-i", "5", "-e", "0.5"]
      = .error (.MissingArgument "-n")
    ∧ (fun s => if s = "5" then some 5 else none) "5" = some 5
    ∧ (fun s => if s = "0.5" then some (1 / 2 : ℚ) else none) "0.5" = some (1 / 2) := by
  refine ⟨?_, by simp, by simp⟩
  simp [parse, parseLoop]

/-- C10 amended: every argument list made of well-formed flag blocks — in any
order, with the optional `-v`, `--seed`, `--init`, `--vinit` blocks and
repetitions allowed — that carries a valid `-n` block and contains both a
valid `-i <count>` and a valid `-e <threshold>` block parses successfully (the
combination is not rejected), recording `iter = some c` and the threshold `e`,
where `c` and `e` are the effective (last-occurrence) `-i` and `-e` values;
the run then uses fixed-iteration mode: `update` is applied exactly `c` times
while the threshold (and any fuel bound) is ignored. -/
theorem claim10_amended (pu : String → Option ℕ) (pf : String → Option ℚ)
    (ps : String → Option ℕ) (pl : String → Except ParseError (List ℚ))
    (prog : String) (args : List String) (c n : ℕ) (e : ℚ)
    (h : FlagsIter pu pf ps pl args (some c) (some n) (some e)) :
    ∃ opts : RunOptions,
      parse pu pf ps pl (prog :: args) = .ok opts ∧
      opts.n = n ∧ opts.iter = some c ∧ opts.thresh = e ∧
      ∀ (c1 c2 : ℚ) (f : ℚ → ℚ) (opt : OptimizationPolicy) (t : ℚ) (fuel : ℕ)
        (s : ParticleSwarm) (r : ℕ → ℚ),
        mainLoop c1 c2 f opt opts.iter t fuel s r = iterateUpdate c1 c2 f opt c s r := by
  obtain ⟨acc2, hp, hn, hi, ht⟩ :=
    parseLoop_flags h ⟨none, none, false, 1 / 10000, none, none, none⟩
  have hn2 : acc2.n = some n := hn
  have hi2 : acc2.iter = some c := hi
  have ht2 : acc2.thresh = e := ht
  refine ⟨⟨n, some c, e, acc2.verbose, acc2.init, acc2.vinit, acc2.seed⟩, ?_, rfl, rfl, rfl,
    fun c1 c2 f opt t fuel s r => rfl⟩
  unfold parse
  simp only [List.drop_succ_cons, List.drop_zero, hp, hn2, hi2, ht2]

/-- C10 amended witness: concrete parsers accepting `"2"`, `"9"` and `"0.25"`,
on the shuffled list `["pso", "-e", "0.25", "-i", "9", "-v", "-n", "2"]`,
which also carries the optional `-v` flag. -/
theorem claim10_amended_witness :
    ∃ opts : RunOptions,
      parse (fun s => if s = "2" then some 2 else if s = "9" then some 9 else none)
            (fun s => if s = "0.25" then some (1 / 4 : ℚ) else none)
            (fun _ => none) (fun s => .error (.InvalidArgument s))
            ["pso", "-e", "0.25", "-i", "9", "-v", "-n", "2"] = .ok opts ∧
      opts.n = 2 ∧ opts.iter = some 9 ∧ opts.thresh = 1 / 4 ∧
      ∀ (c1 c2 : ℚ) (f : ℚ → ℚ) (opt : OptimizationPolicy) (t : ℚ) (fuel : ℕ)
        (s : ParticleSwarm) (r : ℕ → ℚ),
        mainLoop c1 c2 f opt opts.iter t fuel s r = iterateUpdate c1 c2 f opt 9 s r :=
  claim10_amended
    (fun s => if s = "2" then some 2 else if s = "9" then some 9 else none)
    (fun s => if s = "0.25" then some (1 / 4 : ℚ) else none)
    (fun _ => none) (fun s => .error (.InvalidArgument s))
    "pso" ["-e", "0.25", "-i", "9", "-v", "-n", "2"] 9 2 (1 / 4)
    (FlagsIter.eFlag "0.25" (1 / 4) (by simp)
      (FlagsIter.iFlag "9" 9 (by simp)
        (FlagsIter.vFlag
          (FlagsIter.nFlag "2" 2 (by simp) FlagsIter.nil))))

end PSO
